import Mathlib

/-!
Verification of the lego-plotter control core against its specification.

Shallow embedding of:
 - `lib/CommandQueue.ts` (`CommandQueue`): a small-step model of the queue's
   cooperative async semantics (add / command completion / clear).
 - `lib/MovementValidator.ts` (`MovementValidator`): positions, paths,
   sequences, zones.
 - `lib/pathUtils.ts` (`PathProcessor.optimizePlotterMoves`,
   `PathExecutor.executeSequence` / `executeMove`).
 - `lib/PathPlanner.ts` (`PathPlanner.parseSVGPath`'s command loop).
 - `lib/SafetyController.ts` (`checkLimits`, `handleViolation`,
   `emergencyStop`).
 - `components/ManualControl.tsx` (`executeCommand`'s timeout wrapper,
   the UI-level `emergencyStop`).

Numbers are embedded as `ℚ` (the source uses JS floats on millimetre/degree
scales; no claim depends on float rounding).  JS `Math.sqrt` comparisons are
embedded as the equivalent comparisons of squares, noted at each use.
-/

/-! ## Command Queue (`lib/CommandQueue.ts`)

The queue's observable state.  `queue`, `executing` and `currentCommand` are
the class's own fields.  `submitted`, `started` and `settled` are ghost logs:
`submitted` records ids in `add` order, `started` records ids in the order
their `execute` bodies were entered, `settled` records ids in the order the
caller handles resolved/rejected.  Ids are modelled by a counter `nextId`
(the source uses a `Date.now()` timestamp; the id's value is never consulted). -/
structure QState where
  queue : List Nat
  executing : Bool
  currentCommand : Option Nat
  nextId : Nat
  submitted : List Nat
  started : List Nat
  settled : List Nat
deriving DecidableEq, Repr

/-- Initial state of a freshly constructed `CommandQueue`. -/
def QState.initial : QState := ⟨[], false, none, 0, [], [], []⟩

/-- Synchronous prefix of `processQueue()` (lines 31–39): early return when
`executing` or the queue is empty; otherwise set the flag, shift the head and
enter its `execute` body (the subsequent `await` is the suspension point). -/
def startNext (s : QState) : QState :=
  if s.executing then s
  else
    match s.queue with
    | [] => s
    | i :: rest =>
        { s with executing := true, currentCommand := some i,
                 queue := rest, started := s.started ++ [i] }

/-- Events interleavable at suspension points: `add` (push + synchronous
`processQueue`), `finish i` (the in-flight execute body of command `i`
settles its caller handle, then the awaiting `processQueue` activation resumes
at lines 45–47: clear the flag, null `currentCommand`, recurse), and
`clear` (lines 50–54). -/
inductive QAction where
  | add : QAction
  | finish : Nat → QAction
  | clear : QAction
deriving DecidableEq, Repr

/-- One interleaving step of the `CommandQueue`.  `finish i` is a no-op unless
command `i` has started and not yet settled (a body can only complete once). -/
def qstep (s : QState) (a : QAction) : QState :=
  match a with
  | .add =>
      startNext { s with queue := s.queue ++ [s.nextId],
                         submitted := s.submitted ++ [s.nextId],
                         nextId := s.nextId + 1 }
  | .finish i =>
      if i ∈ s.started ∧ i ∉ s.settled then
        startNext { s with settled := s.settled ++ [i],
                           executing := false, currentCommand := none }
      else s
  | .clear => { s with queue := [], executing := false, currentCommand := none }

/-- Run a sequence of interleaved queue events from the initial state. -/
def qrun (acts : List QAction) : QState := acts.foldl qstep QState.initial

/-- Commands whose `execute` bodies are started and not yet settled. -/
def inFlight (s : QState) : List Nat :=
  s.started.filter (fun i => !(s.settled.contains i))

/-- Reachable-state invariant of the `CommandQueue` for `clear`-free runs:
ids are issued consecutively, execute bodies start in submission order,
handles settle in submission order, and at most the single current command
is started-but-unsettled. -/
def QInv (s : QState) : Prop :=
  ∃ n k, s.nextId = n ∧ k ≤ n ∧
    s.submitted = List.range n ∧
    s.started = List.range k ∧
    s.queue = List.range' k (n - k) ∧
    ((s.executing = true ∧ 1 ≤ k ∧ s.settled = List.range (k - 1) ∧
        s.currentCommand = some (k - 1)) ∨
     (s.executing = false ∧ k = n ∧ s.settled = List.range k ∧
        s.currentCommand = none))

/-! ## Movement Validator (`lib/MovementValidator.ts`) -/

/-- Axis-aligned rectangle zone `{x1, y1, x2, y2}`. -/
structure Zone where
  x1 : ℚ
  y1 : ℚ
  x2 : ℚ
  y2 : ℚ
deriving DecidableEq, Repr

/-- Record `MovementBounds` of `lib/MovementValidator.ts`; the optional zone lists
model the `safeZones?` / `dangerZones?` fields (`none` = field absent). -/
structure MovementBounds where
  minX : ℚ
  maxX : ℚ
  minY : ℚ
  maxY : ℚ
  paperWidth : ℚ
  paperHeight : ℚ
  safeZones : Option (List Zone)
  dangerZones : Option (List Zone)
deriving DecidableEq, Repr

/-- Record `SimpleCalibration` (`lib/types.ts`): degrees of rotation per millimetre. -/
structure SimpleCalibration where
  x : ℚ
  y : ℚ
deriving DecidableEq, Repr

/-- A constructed `MovementValidator` (bounds, calibration, simulation flag). -/
structure MovementValidator where
  bounds : MovementBounds
  calibration : SimpleCalibration
  simulationMode : Bool
deriving DecidableEq, Repr

/-- Result record `{ valid: boolean, reason?: string }`. -/
structure ValidationResult where
  valid : Bool
  reason : Option String
deriving DecidableEq, Repr

/-- Constant `MOVEMENT_BOUNDS` of `lib/types.ts`: A5 paper, one danger zone
`{x1:-10, y1:-10, x2:10, y2:10}`, no safe zones. -/
def MOVEMENT_BOUNDS : MovementBounds :=
  ⟨0, 148, 0, 210, 148, 210, none, some [⟨-10, -10, 10, 10⟩]⟩

/-- Embedding of `isInZone` (lines 251–257): inclusive rectangle containment. -/
def isInZone (x y : ℚ) (zone : Zone) : Bool :=
  decide (zone.x1 ≤ x ∧ x ≤ zone.x2 ∧ zone.y1 ≤ y ∧ y ≤ zone.y2)

/-- Embedding of `doLinesIntersect` (lines 283–294): parametric determinant segment
intersection test; a zero denominator (parallel) returns `false`. -/
def doLinesIntersect (x1 y1 x2 y2 x3 y3 x4 y4 : ℚ) : Bool :=
  let denominator := (x2 - x1) * (y4 - y3) - (y2 - y1) * (x4 - x3)
  if denominator = 0 then false
  else
    let ua := ((x4 - x3) * (y1 - y3) - (y4 - y3) * (x1 - x3)) / denominator
    let ub := ((x2 - x1) * (y1 - y3) - (y2 - y1) * (x1 - x3)) / denominator
    decide (0 ≤ ua ∧ ua ≤ 1 ∧ 0 ≤ ub ∧ ub ≤ 1)

/-- Embedding of `doesLineIntersectZone` (lines 259–281): the segment against each of the
zone's four boundary edges (top, right, bottom, left). -/
def doesLineIntersectZone (x1 y1 x2 y2 : ℚ) (zone : Zone) : Bool :=
  [ (zone.x1, zone.y1, zone.x2, zone.y1),
    (zone.x2, zone.y1, zone.x2, zone.y2),
    (zone.x1, zone.y2, zone.x2, zone.y2),
    (zone.x1, zone.y1, zone.x1, zone.y2) ].any
    (fun line => doLinesIntersect x1 y1 x2 y2 line.1 line.2.1 line.2.2.1 line.2.2.2)

/-- Embedding of `validatePosition` (lines 111–153).  Dynamic parts of reason strings are
rendered with `toString`; only the constant reasons are compared by claims. -/
def validatePosition (v : MovementValidator) (x y : ℚ) : ValidationResult :=
  if v.simulationMode then ⟨true, none⟩
  else if x < v.bounds.minX ∨ x > v.bounds.maxX then
    ⟨false, some ("X position " ++ toString x ++ " outside bounds (" ++
      toString v.bounds.minX ++ "-" ++ toString v.bounds.maxX ++ ")")⟩
  else if y < v.bounds.minY ∨ y > v.bounds.maxY then
    ⟨false, some ("Y position " ++ toString y ++ " outside bounds (" ++
      toString v.bounds.minY ++ "-" ++ toString v.bounds.maxY ++ ")")⟩
  else if x < 0 ∨ x > v.bounds.paperWidth ∨ y < 0 ∨ y > v.bounds.paperHeight then
    ⟨false, some "Position outside paper bounds"⟩
  else
    match v.bounds.dangerZones with
    | some zones =>
        if zones.any (fun zone => isInZone x y zone) then
          ⟨false, some "Position is in danger zone"⟩
        else ⟨true, none⟩
    | none => ⟨true, none⟩

/-- Embedding of `validatePath` (lines 155–214).  The source compares
`Math.sqrt(dx*dx + dy*dy)` with `Math.max(paperWidth, paperHeight)`; this is
embedded as the equivalent comparison of squares (both sides are nonnegative
for every configuration in use). -/
def validatePath (v : MovementValidator) (startX startY endX endY : ℚ) :
    ValidationResult :=
  if v.simulationMode then ⟨true, none⟩
  else
    let startValid := validatePosition v startX startY
    if !startValid.valid then startValid
    else
      let endValid := validatePosition v endX endY
      if !endValid.valid then endValid
      else
        let dx := endX - startX
        let dy := endY - startY
        if dx * dx + dy * dy > (max v.bounds.paperWidth v.bounds.paperHeight) ^ 2 then
          ⟨false, some "Path length exceeds maximum allowed distance"⟩
        else
          let crosses :=
            match v.bounds.dangerZones with
            | some zones =>
                zones.any (fun zone => doesLineIntersectZone startX startY endX endY zone)
            | none => false
          if crosses then ⟨false, some "Path crosses danger zone"⟩
          else
            let degreesX := dx * v.calibration.x
            let degreesY := dy * v.calibration.y
            -- MAX_DEGREES_PER_MOVE = 360
            if |degreesX| > 360 ∨ |degreesY| > 360 then
              ⟨false, some "Movement requires excessive motor rotation"⟩
            else ⟨true, none⟩

/-! ## Moves and move-list optimization (`lib/types.ts`, `lib/pathUtils.ts`) -/

/-- Kind of a `PlotterMove`: `'move'` (travel, pen up) or `'draw'`. -/
inductive MoveKind where
  | move : MoveKind
  | draw : MoveKind
deriving DecidableEq, Repr

/-- Record `PlotterMove` (`lib/types.ts`): `{type, x, y, z?}`. -/
structure Move where
  type : MoveKind
  x : ℚ
  y : ℚ
  z : Option ℚ
deriving DecidableEq, Repr

/-- Record `BoundingBox` (`lib/types.ts`). -/
structure BoundingBox where
  minX : ℚ
  maxX : ℚ
  minY : ℚ
  maxY : ℚ
deriving DecidableEq, Repr

/-- Record `PlotterSequence` (`lib/types.ts`), restricted to the fields the executor
and validator read. -/
structure PlotterSequence where
  name : String
  moves : List Move
  boundingBox : BoundingBox
deriving DecidableEq, Repr

/-- Body of the `reduce` in `PathProcessor.optimizePlotterMoves`
(lines 86–97): first element seeds the accumulator; a move whose kind equals
the previous accumulated move's kind, both `'draw'`, overwrites the previous
move's endpoint; anything else is appended. -/
def optStep (acc : List Move) (m : Move) : List Move :=
  match acc.getLast? with
  | none => [m]
  | some prev =>
      if prev.type = m.type ∧ m.type = MoveKind.draw then
        acc.dropLast ++ [{ prev with x := m.x, y := m.y }]
      else acc ++ [m]

/-- Embedding of `PathProcessor.optimizePlotterMoves` (lines 76–98): identity in simulation
mode, else the merging `reduce` pass. -/
def optimizePlotterMoves (simulationMode : Bool) (moves : List Move) : List Move :=
  if simulationMode then moves else moves.foldl optStep []

/-- Ordered endpoint trace of a move list: the `(x, y)` endpoints in order. -/
def endpointTrace (moves : List Move) : List (ℚ × ℚ) :=
  moves.map (fun m => (m.x, m.y))

/-- Adjacent-pair condition under which `optStep` appends rather than merges:
not (same kind and second is a draw).  A list is fully optimized when every
adjacent pair satisfies it. -/
def noMerge (a b : Move) : Prop := ¬(a.type = b.type ∧ b.type = MoveKind.draw)

/-! ## Sequence validation (`MovementValidator.validateSequence`, lines 216–249) -/

/-- Hop-by-hop walk of `validateSequence`'s move loop from a current position,
returning the first failing `validatePath` annotated with the offending
coordinates. -/
def validateMovesFrom (v : MovementValidator) (currentX currentY : ℚ) :
    List Move → ValidationResult
  | [] => ⟨true, none⟩
  | m :: rest =>
      let pathValid := validatePath v currentX currentY m.x m.y
      if pathValid.valid then validateMovesFrom v m.x m.y rest
      else
        ⟨false, some ("Invalid move at (" ++ toString m.x ++ ", " ++ toString m.y ++
          "): " ++ pathValid.reason.getD "undefined")⟩

/-- Embedding of `validateSequence` (lines 216–249): simulation short-circuit, bounding-box
against paper bounds, then the hop-by-hop walk from `(0, 0)`. -/
def validateSequence (v : MovementValidator) (sequence : PlotterSequence) :
    ValidationResult :=
  if v.simulationMode then ⟨true, none⟩
  else if sequence.boundingBox.maxX > v.bounds.paperWidth ∨
          sequence.boundingBox.maxY > v.bounds.paperHeight ∨
          sequence.boundingBox.minX < 0 ∨
          sequence.boundingBox.minY < 0 then
    ⟨false, some "Sequence exceeds paper bounds"⟩
  else validateMovesFrom v 0 0 sequence.moves

/-! ## Path Executor (`lib/pathUtils.ts`, `PathExecutor`) -/

/-- Plotter axis ports. -/
inductive Port where
  | A : Port
  | B : Port
  | C : Port
deriving DecidableEq, Repr

/-- One issued `rotateByDegrees(port, degrees, speed)` call, tracked as
`(port, degrees)`.  The speed argument (derived in the source from a
`Math.sqrt` distance) is not tracked: no claim refers to it. -/
abbrev AxisCmd := Port × ℚ

/-- Hardware behaviour oracle: `true` means that `rotateByDegrees` call
throws (motor missing or device error). -/
abbrev HwOracle := Port → ℚ → Bool

/-- Constructed `PathExecutor` configuration: converted calibration, mode,
speeds, and the validator (the source builds it from `MOVEMENT_BOUNDS` unless
a `validatorOverride` is passed; either way it is a fixed value here). -/
structure ExecutorConfig where
  calibration : SimpleCalibration
  simulationMode : Bool
  moveSpeed : ℚ
  drawSpeed : ℚ
  validator : MovementValidator
deriving Repr

/-- Embedding of `PathExecutor.executeMove` (lines 230–266): pen command first when
`move.z` is a number (its failure propagates before any axis command), then
the two axis rotations issued together (`Promise.all`, B then A as listed);
the move fails when either throws.  Returns the issued calls and success. -/
def executeMove (cfg : ExecutorConfig) (hw : HwOracle) (currentX currentY : ℚ)
    (m : Move) : List AxisCmd × Bool :=
  let degreesX := (m.x - currentX) * cfg.calibration.x
  let degreesY := (m.y - currentY) * cfg.calibration.y
  match m.z with
  | some z =>
      if hw Port.C z then ([(Port.C, z)], false)
      else
        ([(Port.C, z), (Port.B, degreesX), (Port.A, degreesY)],
         !(hw Port.B degreesX || hw Port.A degreesY))
  | none =>
      ([(Port.B, degreesX), (Port.A, degreesY)],
       !(hw Port.B degreesX || hw Port.A degreesY))

/-- The move loop of `executeSequence` (lines 204–217): per move, simulation
uses `simulateMove` (no hardware calls, position updated); otherwise
`executeMove`, a failure aborting the remaining moves. -/
def runMoves (cfg : ExecutorConfig) (hw : HwOracle) :
    ℚ → ℚ → List Move → List AxisCmd × Bool
  | _, _, [] => ([], true)
  | currentX, currentY, m :: rest =>
      if cfg.simulationMode then runMoves cfg hw m.x m.y rest
      else
        match executeMove cfg hw currentX currentY m with
        | (cs, true) =>
            let r := runMoves cfg hw m.x m.y rest
            (cs ++ r.1, r.2)
        | (cs, false) => (cs, false)

/-- Embedding of `PathExecutor.executeSequence` (lines 188–228): validate, optimize
(`optimizePlotterMoves` called without the simulation flag, hence `false`),
execute each move from the tracked `(0, 0)` start, and — only on the success
path, outside simulation — issue the trailing pen-up `rotateByDegrees('C', 0, 30)`.
Any failure propagates out of the `try` (there is no `finally`). -/
def executeSequence (cfg : ExecutorConfig) (hw : HwOracle)
    (sequence : PlotterSequence) : List AxisCmd × Bool :=
  let validationResult := validateSequence cfg.validator sequence
  if validationResult.valid then
    let optimizedMoves := optimizePlotterMoves false sequence.moves
    match runMoves cfg hw 0 0 optimizedMoves with
    | (cs, true) =>
        if cfg.simulationMode then (cs, true)
        else (cs ++ [(Port.C, 0)], !(hw Port.C 0))
    | (cs, false) => (cs, false)
  else ([], false)

/-! ## Path Planner (`lib/PathPlanner.ts`, `parseSVGPath` command loop) -/

/-- Codes of the parsed path commands the switch handles; `other` stands for
every other code (the switch has no default case). -/
inductive SvgCode where
  | M : SvgCode
  | L : SvgCode
  | C : SvgCode
  | Z : SvgCode
  | other : SvgCode
deriving DecidableEq, Repr

/-- A parsed command as typed in `types/svg-path-parser.d.ts`: optional
coordinate and control-point fields.  `parseSVG` emits `Z` commands with no
coordinate fields at all. -/
structure SvgCmd where
  code : SvgCode
  x : Option ℚ
  y : Option ℚ
  x0 : Option ℚ
  y0 : Option ℚ
  x1 : Option ℚ
  y1 : Option ℚ
  x2 : Option ℚ
  y2 : Option ℚ
deriving DecidableEq, Repr

/-- Convenience constructor for a command that only carries `x`/`y`. -/
def SvgCmd.simple (code : SvgCode) (x y : Option ℚ) : SvgCmd :=
  ⟨code, x, y, none, none, none, none, none, none⟩

/-- State threaded through `parseSVGPath`'s loop: the accumulated moves and
the `penDown` flag. -/
structure ParseState where
  moves : List Move
  penDown : Bool
deriving DecidableEq, Repr

/-- One sampled cubic Bézier point (the standard parametric blend used by
`approximateBezier`, lines 115–140). -/
def bezierPoint (x0 y0 x1 y1 x2 y2 x3 y3 t : ℚ) : ℚ × ℚ :=
  let mt := 1 - t
  (mt * mt * mt * x0 + 3 * mt * mt * t * x1 + 3 * mt * t * t * x2 + t * t * t * x3,
   mt * mt * mt * y0 + 3 * mt * mt * t * y1 + 3 * mt * t * t * y2 + t * t * t * y3)

/-- Embedding of `approximateBezier` (lines 115–140): `segments + 1` samples at
`t = i / segments`. -/
def approximateBezier (x0 y0 x1 y1 x2 y2 x3 y3 : ℚ) (segments : ℕ) :
    List (ℚ × ℚ) :=
  (List.range (segments + 1)).map
    (fun i => bezierPoint x0 y0 x1 y1 x2 y2 x3 y3 ((i : ℚ) / (segments : ℚ)))

/-- Emission of one sampled point of a `C` command (lines 82–88): pen-down
travel first if the pen is up, then the draw. -/
def emitPoint (scale : ℚ) (s : ParseState) (p : ℚ × ℚ) : ParseState :=
  let pre : List Move :=
    if s.penDown then [] else [⟨MoveKind.move, p.1 * scale, p.2 * scale, some (-45)⟩]
  ⟨s.moves ++ pre ++ [⟨MoveKind.draw, p.1 * scale, p.2 * scale, none⟩], true⟩

/-- One iteration of `parseSVGPath`'s `for` loop (lines 44–98).  Line 46's
falsy guard `if (!cmd.x || !cmd.y) continue` skips the command when either
coordinate is absent — or is the number `0`, which is falsy in JS. -/
def buildStep (scale : ℚ) (s : ParseState) (cmd : SvgCmd) : ParseState :=
  match cmd.x, cmd.y with
  | some cx, some cy =>
      if cx = 0 ∨ cy = 0 then s
      else
        match cmd.code with
        | .M => ⟨s.moves ++ [⟨MoveKind.move, cx * scale, cy * scale, some 0⟩], false⟩
        | .L =>
            let pre : List Move :=
              if s.penDown then []
              else [⟨MoveKind.move, cx * scale, cy * scale, some (-45)⟩]
            ⟨s.moves ++ pre ++ [⟨MoveKind.draw, cx * scale, cy * scale, none⟩], true⟩
        | .C =>
            match cmd.x0, cmd.y0, cmd.x1, cmd.y1, cmd.x2, cmd.y2 with
            | some cx0, some cy0, some cx1, some cy1, some cx2, some cy2 =>
                (approximateBezier cx0 cy0 cx1 cy1 cx2 cy2 cx cy 10).foldl
                  (emitPoint scale) s
            | _, _, _, _, _, _ => s
        | .Z =>
            match s.moves.head? with
            | some first => ⟨s.moves ++ [⟨MoveKind.draw, first.x, first.y, none⟩], s.penDown⟩
            | none => s
        | .other => s
  | _, _ => s

/-- The whole command loop of `parseSVGPath` starting from an empty move list
and pen up. -/
def buildLoop (scale : ℚ) (s : ParseState) (cmds : List SvgCmd) : ParseState :=
  cmds.foldl (buildStep scale) s

/-- Embedding of `parseSVGPath`'s move construction (lines 40–103): the command loop, then
the final forced pen-up copy of the last move (lines 101–103).  The
subsequent `validateAndScalePath` call (line 106) is outside the claims. -/
def buildMoves (scale : ℚ) (cmds : List SvgCmd) : List Move :=
  let s := buildLoop scale ⟨[], false⟩ cmds
  match s.moves.getLast? with
  | some lastMove => s.moves ++ [{ lastMove with z := some 0 }]
  | none => s.moves

/-! ## Safety Controller (`lib/SafetyController.ts`) -/

/-- Per-axis `SafetyLimits`. -/
structure SafetyLimits where
  maxSpeed : ℚ
  maxAcceleration : ℚ
  minDegrees : ℚ
  maxDegrees : ℚ
  maxCurrent : ℚ
  maxTemperature : ℚ
  maxMotorLoad : ℚ
deriving DecidableEq, Repr

/-- The constructor's limit table (lines 36–64). -/
def safetyLimits : Port → SafetyLimits
  | .A => ⟨100, 500, -360, 360, 1000, 50, 90⟩
  | .B => ⟨100, 500, -180, 180, 1000, 50, 90⟩
  | .C => ⟨50, 200, -45, 45, 500, 50, 90⟩

/-- Sampled `MotorStatus` telemetry. -/
structure MotorStatus where
  currentPosition : ℚ
  speed : ℚ
  current : ℚ
  temperature : ℚ
  load : ℚ
deriving DecidableEq, Repr

/-- State of the `SafetyController` relevant to violation handling, with
ghost counters: `violations` counts `handleViolation` invocations, `estops`
counts `emergencyStop` invocations.  `now` is the current time in ms and
`resetAt` the pending `setTimeout` that re-arms `stopRequested`. -/
structure SCState where
  stopRequested : Bool
  now : ℕ
  resetAt : Option ℕ
  violations : ℕ
  estops : ℕ
deriving DecidableEq, Repr

/-- Embedding of `handleViolation` (lines 148–161): emit the alert (counted), and — unless
a stop is already requested — set the guard, run `emergencyStop` (counted)
and schedule the guard release 1,000 ms later.  The guard test and set happen
in the call's synchronous prefix, before any suspension point. -/
def handleViolation (_port : Port) (_reason : String) (_value : ℚ)
    (s : SCState) : SCState :=
  let s := { s with violations := s.violations + 1 }
  if s.stopRequested then s
  else { s with stopRequested := true, estops := s.estops + 1,
                resetAt := some (s.now + 1000) }

/-- Embedding of `checkLimits` (lines 116–146): the six independent `if`s in source order
(position below / above, speed, current, temperature, load). -/
def checkLimits (port : Port) (status : MotorStatus) (s : SCState) : SCState :=
  let limits := safetyLimits port
  let s := if status.currentPosition < limits.minDegrees then
              handleViolation port "Position below minimum limit" status.currentPosition s
           else s
  let s := if status.currentPosition > limits.maxDegrees then
              handleViolation port "Position above maximum limit" status.currentPosition s
           else s
  let s := if |status.speed| > limits.maxSpeed then
              handleViolation port "Speed exceeds maximum limit" status.speed s
           else s
  let s := if status.current > limits.maxCurrent then
              handleViolation port "Current draw too high" status.current s
           else s
  let s := if status.temperature > limits.maxTemperature then
              handleViolation port "Temperature too high" status.temperature s
           else s
  let s := if status.load > limits.maxMotorLoad then
              handleViolation port "Motor load too high" status.load s
           else s
  s

/-- Advance the clock to time `t`; the scheduled `setTimeout` callback
(lines 157–159) fires once its due time is reached, releasing
`stopRequested`. -/
def advanceTo (t : ℕ) (s : SCState) : SCState :=
  match s.resetAt with
  | some r => if r ≤ t then { s with now := t, stopRequested := false, resetAt := none }
              else { s with now := t }
  | none => { s with now := t }

/-! ## Emergency stops

`SafetyController.emergencyStop` (lines 163–183) stops monitoring and brakes
ports A, B, C independently (`Promise.all`, each wrapped in its own
`try`/`catch`, so one failure does not short-circuit the others).  The class
holds no reference to any `CommandQueue`; the queue is threaded through the
model unchanged to express claims about it.

The UI-level `emergencyStop` of `components/ManualControl.tsx`
(lines 1058–1074) clears its `CommandQueue` and calls `stopMotor` (brake) on
every port of `motorStates` (A, B, C). -/

/-- Hub device table: `none` = no motor at the port, `some b` = motor present
whose `brake()` throws iff `b`. -/
abbrev Hub := Port → Option Bool

/-- Observable outcome of an emergency stop against a given hub and a given
pending command queue. -/
structure EStopResult where
  queue : List Nat
  monitoring : Bool
  brakeAttempts : List Port
  failuresReported : List Port
deriving DecidableEq, Repr

/-- Embedding of `SafetyController.emergencyStop` (lines 163–183): stop monitoring, then
for each of A, B, C with a device attached, attempt `brake()`, reporting each
failure individually.  The pending command queue is untouched (the controller
has no reference to it). -/
def scEmergencyStop (hub : Hub) (queue : List Nat) : EStopResult :=
  let ports := [Port.A, Port.B, Port.C]
  { queue := queue,
    monitoring := false,
    brakeAttempts := ports.filter (fun p => (hub p).isSome),
    failuresReported := ports.filter (fun p => hub p = some true) }

/-- The UI-level `emergencyStop` (`ManualControl.tsx` lines 1058–1074):
`commandQueue.current.clear()`, then `stopMotor` on each of A, B, C
(`PlotterControl.brake` is a no-op for a missing motor). -/
def uiEmergencyStop (hub : Hub) (_queue : List Nat) : EStopResult :=
  let ports := [Port.A, Port.B, Port.C]
  { queue := [],
    monitoring := true,
    brakeAttempts := ports.filter (fun p => (hub p).isSome),
    failuresReported := ports.filter (fun p => hub p = some true) }

/-! ## Queued-operation timeout (`ManualControl.executeCommand`, lines 804–824)

Every submission to the `CommandQueue` in the application goes through
`executeCommand`, which wraps the command in a race against
`setTimeout(..., COMMAND_TIMEOUT)`: the caller's handle rejects with
`'Command timeout'` when the command has not completed first, and the queue's
`execute` wrapper catches the rejection so the drain loop moves on.  An
operation is modelled by its completion delay (`none` = never completes) and
its own outcome. -/

/-- A queued operation: completion delay in ms (`none` = never completes) and
whether it resolves (`ok`) when it does complete. -/
structure QueuedOp where
  dur : Option ℕ
  ok : Bool
deriving DecidableEq, Repr

/-- Settlement of the caller's handle. -/
inductive Outcome where
  | resolved : Outcome
  | opFailed : Outcome
  | timedOut : Outcome
deriving DecidableEq, Repr

/-- Constant `COMMAND_TIMEOUT` (`lib/types.ts` line 238). -/
def COMMAND_TIMEOUT : ℕ := 5000

/-- Outcome of one wrapped operation: its own settlement when it completes
before the timer fires, else the timeout rejection. -/
def wrappedOutcome (op : QueuedOp) : Outcome :=
  match op.dur with
  | some d => if d < COMMAND_TIMEOUT then (if op.ok then .resolved else .opFailed)
              else .timedOut
  | none => .timedOut

/-- Delay from an operation's start until its handle settles: its own delay,
capped by the timeout. -/
def settleDelay (op : QueuedOp) : ℕ :=
  match op.dur with
  | some d => min d COMMAND_TIMEOUT
  | none => COMMAND_TIMEOUT

/-- The drain loop over wrapped operations starting at time `t`: each
operation settles `settleDelay` after its start, and the next starts then
(the `execute` wrapper converts rejections into a caught error, so draining
continues). -/
def drainFrom (t : ℕ) : List QueuedOp → List (ℕ × Outcome)
  | [] => []
  | op :: rest =>
      (t + settleDelay op, wrappedOutcome op) :: drainFrom (t + settleDelay op) rest

/-! ## Concrete instances used by the scenario claims -/

/-- A `MovementValidator` built from the default `MOVEMENT_BOUNDS` with the
default calibration `{X: 10, Y: 10}` degrees/mm, outside simulation. -/
def defaultValidator : MovementValidator := ⟨MOVEMENT_BOUNDS, ⟨10, 10⟩, false⟩

/-- A validator constructed with the simulation flag set (every check
short-circuits to valid), as passed through `validatorOverride`. -/
def simValidator : MovementValidator := ⟨MOVEMENT_BOUNDS, ⟨10, 10⟩, true⟩

/-- A `PathExecutor` configuration outside simulation mode with the default
calibration and speeds (`moveSpeed` 50, `drawSpeed` 30) and the
always-valid override validator. -/
def plainExecutor : ExecutorConfig := ⟨⟨10, 10⟩, false, 50, 30, simValidator⟩

/-- Hardware on which every rotation of the B axis throws and everything
else succeeds. -/
def failingBAxis : HwOracle := fun p _ => decide (p = Port.B)

/-- A one-move sequence: travel to `(10, 0)` with no pen command. -/
def oneMoveSeq : PlotterSequence := ⟨"one move", [⟨.move, 10, 0, none⟩], ⟨0, 10, 0, 0⟩⟩

/-! # Helper lemmas -/

/-- Appending the next element extends `range'` by one. -/
theorem range'_concat_nat (k m : ℕ) :
    List.range' k (m + 1) = List.range' k m ++ [k + m] := by
  rw [List.range'_concat]
  simp

/-- The initial `CommandQueue` state satisfies the reachability invariant. -/
theorem qinv_initial : QInv QState.initial := by
  refine ⟨0, 0, rfl, Nat.le_refl 0, ?_, ?_, ?_, Or.inr ⟨rfl, rfl, ?_, rfl⟩⟩ <;> simp [QState.initial]


/-- Lemma: `startNext` is the identity while a command is executing. -/
theorem startNext_executing (s : QState) (hex : s.executing = true) :
    startNext s = s := by
  simp [startNext, hex]

/-- Lemma: `startNext` is the identity when idle with an empty queue. -/
theorem startNext_idle_nil (s : QState) (hex : s.executing = false)
    (hq : s.queue = []) : startNext s = s := by
  simp [startNext, hex, hq]

/-- When idle with a nonempty queue, `startNext` shifts the head and enters
its execute body. -/
theorem startNext_idle_cons (s : QState) (i : ℕ) (rest : List ℕ)
    (hex : s.executing = false) (hq : s.queue = i :: rest) :
    startNext s = { s with executing := true, currentCommand := some i,
                           queue := rest, started := s.started ++ [i] } := by
  simp [startNext, hex, hq]

/-- Unfolding of an `add` step. -/
theorem qstep_add (s : QState) :
    qstep s .add =
      startNext { s with
        queue := s.queue ++ [s.nextId],
        submitted := s.submitted ++ [s.nextId],
        nextId := s.nextId + 1 } := rfl

/-- Unfolding of a valid completion step. -/
theorem qstep_finish_pos (s : QState) (i : ℕ)
    (hg : i ∈ s.started ∧ i ∉ s.settled) :
    qstep s (.finish i) =
      startNext { s with
        settled := s.settled ++ [i],
        executing := false,
        currentCommand := none } := by
  simp only [qstep]
  rw [if_pos hg]

/-- A completion event for a command that is not in flight changes nothing. -/
theorem qstep_finish_neg (s : QState) (i : ℕ)
    (hg : ¬(i ∈ s.started ∧ i ∉ s.settled)) :
    qstep s (.finish i) = s := by
  simp only [qstep]
  rw [if_neg hg]

/-- The `CommandQueue` invariant is preserved by every non-`clear` step. -/
theorem qinv_qstep (s : QState) (a : QAction) (ha : a ≠ QAction.clear)
    (h : QInv s) : QInv (qstep s a) := by
  obtain ⟨n, k, hn, hkn, hsub, hst, hq, hcase⟩ := h
  cases a with
  | clear => exact absurd rfl ha
  | add =>
      rcases hcase with ⟨hex, hk1, hset, hcur⟩ | ⟨hex, hkeqn, hset, hcur⟩
      · -- executing: `processQueue` returns at its first check
        have hs1 : qstep s .add =
            { s with
              queue := s.queue ++ [s.nextId],
              submitted := s.submitted ++ [s.nextId],
              nextId := s.nextId + 1 } := by
          simp [qstep, startNext, hex]
        rw [hs1]
        refine ⟨n + 1, k, by simp [hn], by omega, ?_, by simp [hst], ?_,
          Or.inl ⟨by simp [hex], hk1, by simp [hset], by simp [hcur]⟩⟩
        · show s.submitted ++ [s.nextId] = List.range (n + 1)
          rw [hsub, hn, ← List.range_succ]
        · show s.queue ++ [s.nextId] = List.range' k (n + 1 - k)
          rw [hq, hn]
          have h1 : n + 1 - k = (n - k) + 1 := by omega
          rw [h1, range'_concat_nat]
          have h2 : k + (n - k) = n := by omega
          rw [h2]
      · -- idle: the queue is empty, so the new command starts immediately
        have hqnil : s.queue = [] := by
          rw [hq, hkeqn]
          simp
        have hs1 : qstep s .add =
            { s with
              queue := [],
              executing := true,
              currentCommand := some s.nextId,
              started := s.started ++ [s.nextId],
              submitted := s.submitted ++ [s.nextId],
              nextId := s.nextId + 1 } := by
          simp [qstep, startNext, hex, hqnil]
        rw [hs1]
        refine ⟨n + 1, n + 1, by simp [hn], Nat.le_refl _, ?_, ?_, by simp,
          Or.inl ⟨by simp, by omega, ?_, by simp [hn]⟩⟩
        · show s.submitted ++ [s.nextId] = List.range (n + 1)
          rw [hsub, hn, ← List.range_succ]
        · show s.started ++ [s.nextId] = List.range (n + 1)
          rw [hst, hkeqn, hn, ← List.range_succ]
        · show s.settled = List.range (n + 1 - 1)
          rw [hset, hkeqn]
          simp
  | finish i =>
      by_cases hg : i ∈ s.started ∧ i ∉ s.settled
      · rcases hcase with ⟨hex, hk1, hset, hcur⟩ | ⟨hex, hkeqn, hset, hcur⟩
        · -- executing: the only started-but-unsettled command is k - 1
          have hik : i = k - 1 := by
            rcases hg with ⟨hg1, hg2⟩
            rw [hst] at hg1
            rw [hset] at hg2
            simp [List.mem_range] at hg1 hg2
            omega
          subst hik
          have hsetk : s.settled ++ [k - 1] = List.range k := by
            rw [hset, ← List.range_succ]
            congr 1
            omega
          rcases Nat.lt_or_ge k n with hlt | hge
          · -- pending work remains: command k starts at once
            have hq' : s.queue = k :: List.range' (k + 1) (n - (k + 1)) := by
              have hm : n - k = (n - (k + 1)) + 1 := by omega
              rw [hq, hm, List.range'_succ]
            have hs1 : qstep s (.finish (k - 1)) =
                { s with
                  settled := s.settled ++ [k - 1],
                  executing := true,
                  currentCommand := some k,
                  queue := List.range' (k + 1) (n - (k + 1)),
                  started := s.started ++ [k] } := by
              rw [qstep_finish_pos _ _ hg]
              simp [startNext, hq']
            rw [hs1]
            refine ⟨n, k + 1, by simp [hn], by omega, by simp [hsub], ?_, by simp,
              Or.inl ⟨by simp, by omega, ?_, by simp⟩⟩
            · show s.started ++ [k] = List.range (k + 1)
              rw [hst, ← List.range_succ]
            · show s.settled ++ [k - 1] = List.range (k + 1 - 1)
              simpa using hsetk
          · -- queue empty: the drain loop goes idle
            have hken : k = n := by omega
            have hqnil : s.queue = [] := by
              rw [hq, hken]
              simp
            have hs1 : qstep s (.finish (k - 1)) =
                { s with
                  settled := s.settled ++ [k - 1],
                  executing := false,
                  currentCommand := none } := by
              rw [qstep_finish_pos _ _ hg]
              simp [startNext, hqnil]
            rw [hs1]
            exact ⟨n, k, by simp [hn], hkn, by simp [hsub], by simp [hst],
              by simp [hq], Or.inr ⟨by simp, hken, by simpa using hsetk, by simp⟩⟩
        · -- idle: every started command has settled, the guard is impossible
          exfalso
          rcases hg with ⟨hg1, hg2⟩
          rw [hst] at hg1
          rw [hset] at hg2
          exact hg2 hg1
      · -- invalid completion event: no state change
        rw [qstep_finish_neg _ _ hg]
        exact ⟨n, k, hn, hkn, hsub, hst, hq, hcase⟩

/-- The invariant holds after any `clear`-free run continued from an
invariant state. -/
theorem qinv_foldl (acts : List QAction) :
    ∀ s, QInv s → (∀ a ∈ acts, a ≠ QAction.clear) →
      QInv (acts.foldl qstep s) := by
  induction acts with
  | nil => exact fun s h _ => h
  | cons a rest ih =>
      intro s h hfree
      exact ih (qstep s a) (qinv_qstep s a (hfree a (by simp)) h)
        (fun b hb => hfree b (by simp [hb]))

/-- The invariant holds in every state reachable without `clear`. -/
theorem qinv_qrun (acts : List QAction) (h : QAction.clear ∉ acts) :
    QInv (qrun acts) := by
  refine qinv_foldl acts QState.initial qinv_initial ?_
  intro a ha hcl
  exact h (hcl ▸ ha)

/-! # Claim theorems -/

/-- Claim C1 (code_bug evidence).  The claim states that the Command Queue
holds at most one actively-executing command at any instant, for every
interleaving of `add()`, `processQueue()` and `clear()`, in particular when
`clear()` is called while a command is in flight and further operations are
then added.  The code violates this: `clear()` resets the `executing` flag
while the current command's execute body is still unsettled, so the very
next `add()` starts a second body.  After `add; clear; add`, two execute
bodies are started and unsettled at once. -/
theorem C1_clear_breaks_single_flight :
    (inFlight (qrun [QAction.add, QAction.clear, QAction.add])).length = 2 := by
  decide

/-- Claim C3 (confirmed).  In every run of the Command Queue without
`clear`, execute bodies are entered in exact submission order (`started` is
a prefix of `submitted`), caller handles settle in exact submission order
(`settled` is a prefix of `submitted`), and at most one submitted operation
has started without having settled — hence no queued operation begins
before every earlier-submitted one has settled.  Quantifying over all
`clear`-free runs covers every instant of every such schedule. -/
theorem C3_fifo_order (acts : List QAction) (h : QAction.clear ∉ acts) :
    (qrun acts).started =
      (qrun acts).submitted.take (qrun acts).started.length ∧
    (qrun acts).settled =
      (qrun acts).submitted.take (qrun acts).settled.length ∧
    (qrun acts).started.length ≤ (qrun acts).settled.length + 1 := by
  obtain ⟨n, k, hn, hkn, hsub, hst, hq, hcase⟩ := qinv_qrun acts h
  have hsettle : ∃ m, m ≤ n ∧ (qrun acts).settled = List.range m ∧ k ≤ m + 1 := by
    rcases hcase with ⟨hex, hk1, hset, hcur⟩ | ⟨hex, hkeqn, hset, hcur⟩
    · exact ⟨k - 1, by omega, hset, by omega⟩
    · exact ⟨k, by omega, hset, by omega⟩
  obtain ⟨m, hmn, hset, hkm⟩ := hsettle
  refine ⟨?_, ?_, ?_⟩
  · rw [hst, hsub, List.length_range, List.take_range]
    congr 1
    omega
  · rw [hset, hsub, List.length_range, List.take_range]
    congr 1
    omega
  · rw [hst, hset, List.length_range, List.length_range]
    omega

/-- Witness for C3 at the concrete run `add; finish 0; add`. -/
theorem C3_fifo_order_witness :
    QAction.clear ∉ [QAction.add, QAction.finish 0, QAction.add] ∧
    ((qrun [QAction.add, QAction.finish 0, QAction.add]).started =
       (qrun [QAction.add, QAction.finish 0, QAction.add]).submitted.take
         (qrun [QAction.add, QAction.finish 0, QAction.add]).started.length ∧
     (qrun [QAction.add, QAction.finish 0, QAction.add]).settled =
       (qrun [QAction.add, QAction.finish 0, QAction.add]).submitted.take
         (qrun [QAction.add, QAction.finish 0, QAction.add]).settled.length ∧
     (qrun [QAction.add, QAction.finish 0, QAction.add]).started.length ≤
       (qrun [QAction.add, QAction.finish 0, QAction.add]).settled.length + 1) :=
  ⟨by decide, C3_fifo_order [QAction.add, QAction.finish 0, QAction.add] (by decide)⟩

/-- Claim C2 counterexample.  The claim states that after `emergencyStop()`
completes, the queue's `pendingCount` is 0.  `SafetyController.emergencyStop`
holds no reference to any `CommandQueue` and clears nothing: with one pending
command and all motors attached, the pending count is still 1 afterwards. -/
theorem C2_counterexample :
    ((scEmergencyStop (fun _ => some false) [7]).queue.length = 0) = False := by
  decide

/-- Claim C2 (corrected).  `SafetyController.emergencyStop` attempts `brake()`
on every connected axis, one axis's failure being reported individually
without short-circuiting the others, but leaves the Command Queue untouched;
it is the UI-level emergency stop (`ManualControl.emergencyStop`) that clears
pending queue work. -/
theorem C2_emergency_stop_behaviour (hub : Hub) (queue : List Nat) :
    (scEmergencyStop hub queue).queue = queue ∧
    (∀ p : Port, (hub p).isSome → p ∈ (scEmergencyStop hub queue).brakeAttempts) ∧
    (∀ p : Port, hub p = some true → p ∈ (scEmergencyStop hub queue).failuresReported) ∧
    (uiEmergencyStop hub queue).queue = [] := by
  refine ⟨rfl, ?_, ?_, rfl⟩
  · intro p hp
    simp only [scEmergencyStop, List.mem_filter]
    exact ⟨by cases p <;> simp, hp⟩
  · intro p hp
    simp only [scEmergencyStop, List.mem_filter, decide_eq_true_eq]
    exact ⟨by cases p <;> simp, hp⟩

/-- Witness for C2's corrected theorem on a concrete hub (all motors present,
all brakes failing) and a nonempty queue. -/
theorem C2_emergency_stop_behaviour_witness :
    (scEmergencyStop (fun _ => some true) [3, 4]).queue = [3, 4] ∧
    Port.A ∈ (scEmergencyStop (fun _ => some true) [3, 4]).brakeAttempts ∧
    Port.B ∈ (scEmergencyStop (fun _ => some true) [3, 4]).failuresReported ∧
    (uiEmergencyStop (fun _ => some true) [3, 4]).queue = [] :=
  ⟨(C2_emergency_stop_behaviour (fun _ => some true) [3, 4]).1,
   (C2_emergency_stop_behaviour (fun _ => some true) [3, 4]).2.1 Port.A (by decide),
   (C2_emergency_stop_behaviour (fun _ => some true) [3, 4]).2.2.1 Port.B (by decide),
   (C2_emergency_stop_behaviour (fun _ => some true) [3, 4]).2.2.2⟩

/-- Claim C8 counterexample.  The claim states `validatePath(20,20,5,5)` with
the default bounds and danger zone reports a zone-crossing reason; it does
report invalid, but with the endpoint-containment reason, not the crossing
reason `'Path crosses danger zone'`. -/
theorem C8_counterexample :
    (validatePath defaultValidator 20 20 5 5).valid = false ∧
    (validatePath defaultValidator 20 20 5 5).reason ≠ some "Path crosses danger zone" := by
  decide

/-- Claim C8 (corrected).  With bounds 0–148 × 0–210 and danger zone
`{-10,-10,10,10}`, `validatePath(20,20,5,5)` returns invalid with reason
`'Position is in danger zone'`: the endpoint `(5,5)` lies inside the zone and
the endpoint check fires before the segment-crossing check. -/
theorem C8_endpoint_in_zone :
    validatePath defaultValidator 20 20 5 5 =
      ⟨false, some "Position is in danger zone"⟩ := by
  decide

/-- Per-operation specification of the drain over wrapped operations, from an
arbitrary start time: every handle settles within `COMMAND_TIMEOUT` of its
start, an operation that does not complete within the timeout settles as
`timedOut`, and one that completes in time settles with its own outcome. -/
theorem drainFrom_spec (ops : List QueuedOp) : ∀ t : ℕ,
    (drainFrom t ops).length = ops.length ∧
    List.Forall₂ (fun (op : QueuedOp) (r : ℕ × Outcome) =>
        settleDelay op ≤ COMMAND_TIMEOUT ∧
        ((∀ d, op.dur = some d → COMMAND_TIMEOUT ≤ d) → r.2 = Outcome.timedOut) ∧
        (∀ d, op.dur = some d → d < COMMAND_TIMEOUT →
          r.2 = if op.ok then Outcome.resolved else Outcome.opFailed))
      ops (drainFrom t ops) := by
  induction ops with
  | nil => exact fun t => ⟨rfl, List.Forall₂.nil⟩
  | cons op rest ih =>
      intro t
      refine ⟨?_, List.Forall₂.cons ⟨?_, ?_, ?_⟩ (ih (t + settleDelay op)).2⟩
      · simp [drainFrom, (ih (t + settleDelay op)).1]
      · cases hdur : op.dur with
        | some d =>
            simp only [settleDelay, hdur]
            exact Nat.min_le_right d COMMAND_TIMEOUT
        | none => simp [settleDelay, hdur]
      · intro hall
        cases hdur : op.dur with
        | some d =>
            have h5 := hall d hdur
            have hnot : ¬(d < COMMAND_TIMEOUT) := by omega
            simp [wrappedOutcome, hdur, hnot]
        | none => simp [wrappedOutcome, hdur]
      · intro d hd hlt
        simp [wrappedOutcome, hd, hlt]

/-- Claim C5 (confirmed).  Every operation queued in the application goes
through `executeCommand`, which attaches the 5,000 ms `COMMAND_TIMEOUT`:
every queued operation's handle settles (the drain loop is never blocked — 
one settlement per submission), an operation that does not complete within
the timeout rejects the caller's handle as `timedOut`, and the queue
continues draining the subsequent work. -/
theorem C5_queue_timeout (ops : List QueuedOp) :
    (drainFrom 0 ops).length = ops.length ∧
    List.Forall₂ (fun (op : QueuedOp) (r : ℕ × Outcome) =>
        settleDelay op ≤ COMMAND_TIMEOUT ∧
        ((∀ d, op.dur = some d → COMMAND_TIMEOUT ≤ d) → r.2 = Outcome.timedOut) ∧
        (∀ d, op.dur = some d → d < COMMAND_TIMEOUT →
          r.2 = if op.ok then Outcome.resolved else Outcome.opFailed))
      ops (drainFrom 0 ops) :=
  drainFrom_spec ops 0

/-- Witness for C5 on a hung first operation followed by a quick one: both
handles settle, the hung one as a timeout. -/
theorem C5_queue_timeout_witness :
    (drainFrom 0 [QueuedOp.mk none true, QueuedOp.mk (some 10) true]).length = 2 := by
  have h := (C5_queue_timeout [QueuedOp.mk none true, QueuedOp.mk (some 10) true]).1
  simpa using h

/-- While a stop is already requested, `handleViolation` only emits the alert:
the guard suppresses the nested emergency stop. -/
theorem handleViolation_suppressed (p : Port) (r : String) (v : ℚ) (s : SCState)
    (h : s.stopRequested = true) :
    handleViolation p r v s = { s with violations := s.violations + 1 } := by
  simp [handleViolation, h]

/-- While a stop is already requested, a whole `checkLimits` tick emits at
most alerts: the emergency-stop count and the guard are unchanged. -/
theorem checkLimits_suppressed (port : Port) (status : MotorStatus) (s : SCState)
    (h : s.stopRequested = true) :
    (checkLimits port status s).estops = s.estops ∧
    (checkLimits port status s).stopRequested = true := by
  simp only [checkLimits]
  split_ifs <;> simp [handleViolation, h]

/-- Claim C9 (confirmed).  A Safety Monitor tick observing axis A temperature
55 against limit `maxTemperature` 50 (all other fields in range) performs
exactly one `handleViolation` and exactly one emergency stop, arms the guard
and schedules its release 1,000 ms later; any further violation checked
before that release adds no further emergency stop. -/
theorem C9_thermal_violation (t0 : ℕ) :
    checkLimits Port.A ⟨0, 0, 0, 55, 0⟩ ⟨false, t0, none, 0, 0⟩ =
      ⟨true, t0, some (t0 + 1000), 1, 1⟩ ∧
    (∀ (t : ℕ) (port : Port) (status : MotorStatus), t < t0 + 1000 →
      (checkLimits port status
        (advanceTo t ⟨true, t0, some (t0 + 1000), 1, 1⟩)).estops = 1) := by
  constructor
  · norm_num [checkLimits, handleViolation, safetyLimits]
  · intro t port status ht
    have hadv : advanceTo t (⟨true, t0, some (t0 + 1000), 1, 1⟩ : SCState) =
        ⟨true, t, some (t0 + 1000), 1, 1⟩ := by
      simp only [advanceTo]
      rw [if_neg (by omega)]
    rw [hadv]
    exact (checkLimits_suppressed port status ⟨true, t, some (t0 + 1000), 1, 1⟩ rfl).1

/-- Witness for C9 at `t0 = 0` with a second hot reading at `t = 500`. -/
theorem C9_thermal_violation_witness :
    checkLimits Port.A ⟨0, 0, 0, 55, 0⟩ ⟨false, 0, none, 0, 0⟩ =
      ⟨true, 0, some 1000, 1, 1⟩ ∧
    (checkLimits Port.A ⟨0, 0, 0, 55, 0⟩
      (advanceTo 500 ⟨true, 0, some 1000, 1, 1⟩)).estops = 1 := by
  have h := C9_thermal_violation 0
  exact ⟨by simpa using h.1, by simpa using h.2 500 Port.A ⟨0, 0, 0, 55, 0⟩ (by norm_num)⟩

/-- A command with coordinate value 0 (or a missing coordinate) is skipped by
the falsy guard of `parseSVGPath`'s loop. -/
theorem buildStep_zero (scale : ℚ) (s : ParseState) (cmd : SvgCmd)
    (h : cmd.x = some 0 ∨ cmd.y = some 0) :
    buildStep scale s cmd = s := by
  rcases h with h | h
  · cases hy : cmd.y with
    | none => simp [buildStep, h, hy]
    | some cy => simp [buildStep, h, hy]
  · cases hx : cmd.x with
    | none => simp [buildStep, h, hx]
    | some cx => simp [buildStep, h, hx]

/-- Claim C10 (confirmed).  Within any command list, a command whose `x` or
`y` coordinate is the number 0 is skipped entirely by `parseSVGPath`'s loop:
removing it from the list leaves the produced state (and so the emitted
moves) unchanged — the falsy guard treats the numeric coordinate 0 like a
missing coordinate. -/
theorem C10_zero_coordinate_skipped (scale : ℚ) (s : ParseState)
    (pre post : List SvgCmd) (cmd : SvgCmd)
    (h : cmd.x = some 0 ∨ cmd.y = some 0) :
    buildLoop scale s (pre ++ cmd :: post) = buildLoop scale s (pre ++ post) := by
  unfold buildLoop
  rw [List.foldl_append, List.foldl_append, List.foldl_cons,
    buildStep_zero scale _ cmd h]

/-- Witness for C10: a line-to command with `x = 0` between two other
commands changes nothing. -/
theorem C10_zero_coordinate_skipped_witness :
    ((SvgCmd.simple .L (some 0) (some 3)).x = some 0 ∨
      (SvgCmd.simple .L (some 0) (some 3)).y = some 0) ∧
    buildLoop 1 ⟨[], false⟩
        [SvgCmd.simple .M (some 5) (some 5), SvgCmd.simple .L (some 0) (some 3),
         SvgCmd.simple .L (some 7) (some 5)] =
      buildLoop 1 ⟨[], false⟩
        [SvgCmd.simple .M (some 5) (some 5), SvgCmd.simple .L (some 7) (some 5)] :=
  ⟨Or.inl rfl,
   C10_zero_coordinate_skipped 1 ⟨[], false⟩ [SvgCmd.simple .M (some 5) (some 5)]
     [SvgCmd.simple .L (some 7) (some 5)] (SvgCmd.simple .L (some 0) (some 3))
     (Or.inl rfl)⟩

/-- Claim C7 counterexample.  The claim states that a close-path command
appends a Draw back to the first recorded point whenever moves already
exist.  After `M (5,5); L (7,5)` moves do exist, yet processing a
parser-produced `Z` (which carries no coordinates) changes nothing: the
falsy coordinate guard skips it before the `Z` branch is reached. -/
theorem C7_close_path_skipped :
    (buildLoop 1 ⟨[], false⟩ [SvgCmd.simple .M (some 5) (some 5),
        SvgCmd.simple .L (some 7) (some 5)]).moves ≠ [] ∧
    buildStep 1 (buildLoop 1 ⟨[], false⟩ [SvgCmd.simple .M (some 5) (some 5),
        SvgCmd.simple .L (some 7) (some 5)]) (SvgCmd.simple .Z none none) =
      buildLoop 1 ⟨[], false⟩ [SvgCmd.simple .M (some 5) (some 5),
        SvgCmd.simple .L (some 7) (some 5)] :=
  ⟨by decide, rfl⟩

/-- Claim C7 (corrected).  A close-path command reaches the `Z` branch — and
then appends a Draw back to the first recorded move's point exactly when
moves already exist, and nothing otherwise — only if it carries nonzero
numeric `x` and `y` coordinates; with a missing or zero coordinate (the case
for every parser-produced `Z`) it is skipped by the guard and emits
nothing. -/
theorem C7_close_path_guard (scale : ℚ) (s : ParseState) (cmd : SvgCmd)
    (hz : cmd.code = SvgCode.Z) :
    ((cmd.x = none ∨ cmd.x = some 0 ∨ cmd.y = none ∨ cmd.y = some 0) →
      buildStep scale s cmd = s) ∧
    (∀ cx cy, cmd.x = some cx → cx ≠ 0 → cmd.y = some cy → cy ≠ 0 →
      (s.moves = [] → buildStep scale s cmd = s) ∧
      (∀ first rest, s.moves = first :: rest →
        buildStep scale s cmd =
          ⟨s.moves ++ [⟨MoveKind.draw, first.x, first.y, none⟩], s.penDown⟩)) := by
  constructor
  · rintro (h | h | h | h)
    · cases hy : cmd.y with
      | none => simp [buildStep, h, hy]
      | some cy => simp [buildStep, h, hy]
    · exact buildStep_zero scale s cmd (Or.inl h)
    · cases hx : cmd.x with
      | none => simp [buildStep, h, hx]
      | some cx => simp [buildStep, h, hx]
    · exact buildStep_zero scale s cmd (Or.inr h)
  · intro cx cy hx hx0 hy hy0
    constructor
    · intro hm
      simp [buildStep, hx, hy, hx0, hy0, hz, hm]
    · intro first rest hm
      simp [buildStep, hx, hy, hx0, hy0, hz, hm]

/-- Witness for C7's corrected theorem: a coordinate-less `Z` over a
nonempty move list emits nothing. -/
theorem C7_close_path_guard_witness :
    (SvgCmd.simple .Z none none).code = SvgCode.Z ∧
    buildStep 1 ⟨[⟨MoveKind.move, 5, 5, some 0⟩], false⟩ (SvgCmd.simple .Z none none) =
      ⟨[⟨MoveKind.move, 5, 5, some 0⟩], false⟩ :=
  ⟨rfl,
   (C7_close_path_guard 1 ⟨[⟨MoveKind.move, 5, 5, some 0⟩], false⟩
      (SvgCmd.simple .Z none none) rfl).1 (Or.inl rfl)⟩

/-- Claim C4 counterexample.  The claim states that even when a move fails,
the pen axis is commanded to its rest position (rotate C to 0) before
`executeSequence` rethrows.  With hardware whose B-axis rotation throws, the
single-move execution fails and the issued command trace contains no
`(C, 0)` at all: the trailing pen-up sits inside the `try` block after the
loop, and there is no `finally`. -/
theorem C4_pen_up_not_issued_on_failure :
    (executeSequence plainExecutor failingBAxis oneMoveSeq).2 = false ∧
    (Port.C, (0 : ℚ)) ∉ (executeSequence plainExecutor failingBAxis oneMoveSeq).1 := by
  decide

/-- Claim C4 (corrected).  Outside simulation mode, a sequence execution
that succeeds ends with the pen axis commanded to its rest position
(`(C, 0)` is the final issued command); but when a move fails, the failure
propagates with the trace ending at the failing move's commands — the
trailing pen-up is not issued. -/
theorem C4_pen_up_on_success_only (cfg : ExecutorConfig) (hw : HwOracle)
    (sequence : PlotterSequence) (hsim : cfg.simulationMode = false) :
    ((executeSequence cfg hw sequence).2 = true →
      (executeSequence cfg hw sequence).1.getLast? = some (Port.C, 0)) ∧
    (∀ cs, (validateSequence cfg.validator sequence).valid = true →
      runMoves cfg hw 0 0 (optimizePlotterMoves false sequence.moves) = (cs, false) →
      executeSequence cfg hw sequence = (cs, false)) := by
  constructor
  · intro hok
    rcases hr : runMoves cfg hw 0 0 (optimizePlotterMoves false sequence.moves)
      with ⟨cs, ok⟩
    cases hv : (validateSequence cfg.validator sequence).valid
    · exfalso
      simp [executeSequence, hv] at hok
    · cases ok
      · exfalso
        simp [executeSequence, hv, hr] at hok
      · simp [executeSequence, hv, hr, hsim, List.getLast?_concat]
  · intro cs hv hr
    simp [executeSequence, hv, hr]

/-- Witness for C4's corrected theorem on fault-free hardware: the
configuration is outside simulation mode and both halves hold. -/
theorem C4_pen_up_on_success_only_witness :
    ((executeSequence plainExecutor (fun _ _ => false) oneMoveSeq).2 = true →
      (executeSequence plainExecutor (fun _ _ => false) oneMoveSeq).1.getLast? =
        some (Port.C, 0)) ∧
    (∀ cs, (validateSequence plainExecutor.validator oneMoveSeq).valid = true →
      runMoves plainExecutor (fun _ _ => false) 0 0
          (optimizePlotterMoves false oneMoveSeq.moves) = (cs, false) →
      executeSequence plainExecutor (fun _ _ => false) oneMoveSeq = (cs, false)) :=
  C4_pen_up_on_success_only plainExecutor (fun _ _ => false) oneMoveSeq rfl

/-- Every list is nil or of the form `l ++ [a]`. -/
theorem eq_nil_or_append_singleton {α : Type} (l : List α) :
    l = [] ∨ ∃ l' a, l = l' ++ [a] := by
  rcases List.eq_nil_or_concat l with h | ⟨L, b, h⟩
  · exact Or.inl h
  · exact Or.inr ⟨L, b, by simpa using h⟩

/-- Lemma: `optStep` on an accumulator ending in a non-mergeable junction appends. -/
theorem optStep_concat (l : List Move) (p m : Move) (hm : noMerge p m) :
    optStep (l ++ [p]) m = (l ++ [p]) ++ [m] := by
  simp only [optStep, List.getLast?_concat]
  rw [if_neg hm]

/-- Lemma: `optStep` merges two consecutive draws, keeping the earlier move's kind
and pen command but the later endpoint. -/
theorem optStep_merge (l : List Move) (p m : Move)
    (hp : p.type = m.type ∧ m.type = MoveKind.draw) :
    optStep (l ++ [p]) m = l ++ [{ p with x := m.x, y := m.y }] := by
  simp only [optStep, List.getLast?_concat, List.dropLast_concat]
  rw [if_pos hp]

/-- Lemma: `optStep` preserves the no-adjacent-mergeable-pair invariant. -/
theorem chain'_optStep (acc : List Move) (m : Move)
    (h : List.Chain' noMerge acc) : List.Chain' noMerge (optStep acc m) := by
  rcases eq_nil_or_append_singleton acc with rfl | ⟨l, p, rfl⟩
  · exact List.chain'_singleton m
  · by_cases hc : p.type = m.type ∧ m.type = MoveKind.draw
    · rw [optStep_merge l p m hc]
      obtain ⟨h1, _, h3⟩ := List.chain'_append.mp h
      refine List.chain'_append.mpr ⟨h1, List.chain'_singleton _, ?_⟩
      intro a ha b hb
      simp only [List.head?_cons, Option.mem_def, Option.some.injEq] at hb
      subst hb
      have hap := h3 a ha p (by simp)
      intro hcontra
      exact hap ⟨hcontra.1, hcontra.2⟩
    · rw [optStep_concat l p m hc]
      refine List.chain'_append.mpr ⟨h, List.chain'_singleton _, ?_⟩
      intro a ha b hb
      simp only [List.head?_cons, Option.mem_def, Option.some.injEq] at hb
      subst hb
      rw [List.getLast?_concat] at ha
      simp only [Option.mem_def, Option.some.injEq] at ha
      subst ha
      exact hc

/-- The optimization fold always produces a list with no adjacent mergeable
pair. -/
theorem chain'_foldl (moves : List Move) : ∀ acc, List.Chain' noMerge acc →
    List.Chain' noMerge (moves.foldl optStep acc) := by
  induction moves with
  | nil => exact fun acc h => h
  | cons m rest ih => exact fun acc h => ih (optStep acc m) (chain'_optStep acc m h)

/-- On input with no adjacent mergeable pair, the optimization fold only
appends: it is the identity. -/
theorem foldl_optStep_fixed (moves : List Move) : ∀ acc,
    List.Chain' noMerge (acc ++ moves) → moves.foldl optStep acc = acc ++ moves := by
  induction moves with
  | nil =>
      intro acc _
      simp
  | cons m rest ih =>
      intro acc h
      have hstep : optStep acc m = acc ++ [m] := by
        rcases eq_nil_or_append_singleton acc with rfl | ⟨l, p, rfl⟩
        · simp [optStep]
        · have hpm : noMerge p m := by
            obtain ⟨_, _, h3⟩ := List.chain'_append.mp h
            exact h3 p (by simp [List.getLast?_concat]) m (by simp)
          exact optStep_concat l p m hpm
      have hassoc : (acc ++ [m]) ++ rest = acc ++ m :: rest := by simp
      rw [List.foldl_cons, hstep, ih (acc ++ [m]) (by rw [hassoc]; exact h)]
      exact hassoc

/-- Each `optStep` keeps the accumulated endpoint trace as a sublist of the
trace extended by the new endpoint. -/
theorem trace_optStep_sublist (acc : List Move) (m : Move) :
    List.Sublist (endpointTrace (optStep acc m))
      (endpointTrace acc ++ [(m.x, m.y)]) := by
  rcases eq_nil_or_append_singleton acc with rfl | ⟨l, p, rfl⟩
  · simp [optStep, endpointTrace]
  · by_cases hc : p.type = m.type ∧ m.type = MoveKind.draw
    · rw [optStep_merge l p m hc]
      simp only [endpointTrace, List.map_append, List.map_cons, List.map_nil]
      rw [List.append_assoc]
      exact List.Sublist.append_left (List.sublist_cons_self (p.x, p.y) [(m.x, m.y)]) _
    · rw [optStep_concat l p m hc]
      simp [endpointTrace]

/-- The optimization fold's endpoint trace is a sublist of the accumulated
trace followed by the input trace. -/
theorem trace_foldl_sublist (moves : List Move) : ∀ acc,
    List.Sublist (endpointTrace (moves.foldl optStep acc))
      (endpointTrace acc ++ endpointTrace moves) := by
  induction moves with
  | nil =>
      intro acc
      simp [endpointTrace]
  | cons m rest ih =>
      intro acc
      rw [List.foldl_cons]
      refine (ih (optStep acc m)).trans ?_
      have hre : endpointTrace acc ++ endpointTrace (m :: rest) =
          (endpointTrace acc ++ [(m.x, m.y)]) ++ endpointTrace rest := by
        simp [endpointTrace]
      rw [hre]
      exact (trace_optStep_sublist acc m).append_right _

/-- After an `optStep`, the last endpoint of the accumulated trace is the
new move's endpoint. -/
theorem trace_optStep_getLast (acc : List Move) (m : Move) :
    (endpointTrace (optStep acc m)).getLast? = some (m.x, m.y) := by
  rcases eq_nil_or_append_singleton acc with rfl | ⟨l, p, rfl⟩
  · simp [optStep, endpointTrace]
  · by_cases hc : p.type = m.type ∧ m.type = MoveKind.draw
    · rw [optStep_merge l p m hc]
      simp [endpointTrace, List.getLast?_concat]
    · rw [optStep_concat l p m hc]
      simp [endpointTrace, List.getLast?_concat]

/-- The optimization fold preserves the final endpoint of the trace. -/
theorem trace_foldl_getLast (moves : List Move) : ∀ acc,
    (endpointTrace (moves.foldl optStep acc)).getLast? =
      (endpointTrace acc ++ endpointTrace moves).getLast? := by
  induction moves with
  | nil =>
      intro acc
      simp [endpointTrace]
  | cons m rest ih =>
      intro acc
      rw [List.foldl_cons, ih (optStep acc m)]
      cases rest with
      | nil =>
          simp only [endpointTrace, List.map_nil, List.append_nil, List.map_cons]
          rw [show (List.map (fun mv => (mv.x, mv.y)) (optStep acc m)).getLast? =
            some (m.x, m.y) from trace_optStep_getLast acc m]
          rw [List.getLast?_concat]
      | cons r rs =>
          have hne : endpointTrace (r :: rs) ≠ [] := by simp [endpointTrace]
          rw [show endpointTrace (m :: r :: rs) =
            (m.x, m.y) :: endpointTrace (r :: rs) from rfl]
          rw [List.getLast?_append_of_ne_nil _ hne,
            List.getLast?_append_of_ne_nil _ (by simp [endpointTrace] :
              ((m.x, m.y) :: endpointTrace (r :: rs)) ≠ []),
            show endpointTrace (r :: rs) = (r.x, r.y) :: endpointTrace rs from rfl,
            List.getLast?_cons_cons]

/-- Claim C6 counterexample.  The claim states that `optimize` preserves the
ordered endpoint trace.  Merging the consecutive draws to `(10,0)` and
`(10,10)` drops the intermediate endpoint `(10,0)`, changing both the
endpoint trace and the traced polyline (the L-shaped path becomes a
diagonal). -/
theorem C6_trace_not_preserved :
    endpointTrace (optimizePlotterMoves false
      [⟨MoveKind.move, 0, 0, some 0⟩, ⟨MoveKind.draw, 10, 0, none⟩,
       ⟨MoveKind.draw, 10, 10, none⟩]) ≠
    endpointTrace
      [⟨MoveKind.move, 0, 0, some 0⟩, ⟨MoveKind.draw, 10, 0, none⟩,
       ⟨MoveKind.draw, 10, 10, none⟩] := by
  decide

/-- Claim C6 (corrected).  `optimize` (`optimizePlotterMoves` outside
simulation mode) is idempotent, never reorders: its endpoint trace is a
sublist of the input's endpoint trace with the same final endpoint; but it
drops the intermediate endpoints of merged consecutive draw runs, so the
full ordered endpoint trace (and the traced polyline) is not preserved in
general. -/
theorem C6_optimize_idempotent_sublist (m : List Move) :
    optimizePlotterMoves false (optimizePlotterMoves false m) =
      optimizePlotterMoves false m ∧
    List.Sublist (endpointTrace (optimizePlotterMoves false m)) (endpointTrace m) ∧
    (endpointTrace (optimizePlotterMoves false m)).getLast? =
      (endpointTrace m).getLast? := by
  refine ⟨?_, ?_, ?_⟩
  · show (optimizePlotterMoves false m).foldl optStep [] = optimizePlotterMoves false m
    exact foldl_optStep_fixed _ []
      (by simpa using chain'_foldl m [] List.chain'_nil)
  · simpa [endpointTrace] using trace_foldl_sublist m []
  · simpa [endpointTrace] using trace_foldl_getLast m []
